import Mathlib

/-!
Verification of the py_experimenter combination engine, field-schema model
and MySQL backend claim step, as a shallow embedding of
`py_experimenter/utils.py` and `py_experimenter/database_connector_mysql.py`.

Python dictionaries with string keys are modelled as association lists
`List (String × V)`; Python strings, where their character structure matters
(splitting, stripping), are modelled as `List Char`.
-/

deriving instance DecidableEq for Except

namespace PyExperimenter

/-- Python exception class `ParameterCombinationError`; one constructor per
raise site in `utils.py` (the source attaches a distinct message string at
each site). -/
inductive ParameterCombinationError where
  | duplicateKeyInMerge
  | noParameterCombinationFound
  | duplicateKeyInCombination
  | keyfieldSetMismatch
deriving DecidableEq, Repr

/-- A Python dict with string keys, as an association list. Real Python dicts
never repeat a key; where that matters the theorems carry `Nodup` hypotheses. -/
abbrev Dict (V : Type) := List (String × V)

/-- The key list of a dict (`combination.keys()` in the source). -/
def dictKeys {V : Type} (c : Dict V) : List String := c.map Prod.fst

/-- The cartesian product of the domain lists, as computed at utils.py:129 by
`np.array(np.meshgrid(*keyfield_data)).T.reshape(-1, len(keyfield_data))`:
one row per selection of one value from each domain. numpy emits the same
rows in a different row order; every claim settled here is insensitive to the
row order, only to the multiset of rows. -/
def meshgrid {V : Type} : List (List V) → List (List V)
  | [] => [[]]
  | d :: ds => d.flatMap (fun v => (meshgrid ds).map (fun row => v :: row))

/-- utils.py:119-133, `create_combination_from_parameters`: iterate the
declared keyfields in order, keep those present in `parameters` (building
`used_keys` and `keyfield_data` in one pass, here fused as a `filterMap`),
and if any survive take the meshgrid product and zip each row back with the
used keys (`dict(zip(used_keys, combination))`). -/
def create_combination_from_parameters {V : Type} (keyfield_names : List String)
    (parameters : List (String × List V)) : List (Dict V) :=
  let used := keyfield_names.filterMap (fun k => (parameters.lookup k).map (fun d => (k, d)))
  if used.isEmpty then []
  else (meshgrid (used.map Prod.snd)).map (fun vs => (used.map Prod.fst).zip vs)

/-- utils.py:140-143, `dict(**comination, **fixed_parameter_combination)`:
Python raises `TypeError` when a key occurs in both dicts, which the source
catches and re-raises as `ParameterCombinationError`. -/
def merge_parameter_dicts {V : Type} (a b : Dict V) :
    Except ParameterCombinationError (Dict V) :=
  if a.any (fun p => b.any (fun q => q.1 == p.1)) then .error .duplicateKeyInMerge
  else .ok (a ++ b)

/-- Inner loop of utils.py:138-144: merge one product row with every fixed
row in order, stopping at the first failing merge. -/
def merge_with_each {V : Type} (c : Dict V) :
    List (Dict V) → Except ParameterCombinationError (List (Dict V))
  | [] => .ok []
  | f :: rest => do
    let m ← merge_parameter_dicts c f
    let ms ← merge_with_each c rest
    pure (m :: ms)

/-- Outer loop of utils.py:138-144: for every product row, for every fixed
row, append the merged dict to `new_combinations`. -/
def merge_all {V : Type} :
    List (Dict V) → List (Dict V) → Except ParameterCombinationError (List (Dict V))
  | [], _ => .ok []
  | c :: cs, fixed => do
    let first ← merge_with_each c fixed
    let rest ← merge_all cs fixed
    pure (first ++ rest)

/-- utils.py:135-148, `add_individual_parameters_to_combinations`: when the
product row list is non-empty merge every product row with every fixed row;
when it is empty the fixed combinations are the result verbatim. -/
def add_individual_parameters_to_combinations {V : Type}
    (combinations fixed_parameter_combinations : List (Dict V)) :
    Except ParameterCombinationError (List (Dict V)) :=
  if combinations.isEmpty then .ok fixed_parameter_combinations
  else merge_all combinations fixed_parameter_combinations

/-- utils.py:162, `set(combination.keys()) != set(keyfield_names)` negated:
the two key lists contain the same elements. -/
def key_set_matches {V : Type} (keyfield_names : List String) (c : Dict V) : Bool :=
  (dictKeys c).all (fun k => keyfield_names.contains k) &&
    keyfield_names.all (fun k => (dictKeys c).contains k)

/-- utils.py:158-164, the per-combination post-condition checks: first the
duplicate-key check (`len(keys) == len(set(keys))`), then the key-set
equality check, each raising `ParameterCombinationError`. -/
def check_combination {V : Type} (keyfield_names : List String) (c : Dict V) :
    Except ParameterCombinationError Unit :=
  if (dictKeys c).length ≠ ((dictKeys c).dedup).length then
    .error .duplicateKeyInCombination
  else if key_set_matches keyfield_names c then .ok ()
  else .error .keyfieldSetMismatch

/-- utils.py:158-164, the `for combination in combinations` check loop. -/
def check_all {V : Type} (keyfield_names : List String) :
    List (Dict V) → Except ParameterCombinationError Unit
  | [] => .ok ()
  | c :: rest => do
    check_combination keyfield_names c
    check_all keyfield_names rest

/-- utils.py:150-153: the product rows, merged with the fixed combinations
when any fixed combinations were supplied. -/
def merged_combinations {V : Type} (keyfield_names : List String)
    (parameters : List (String × List V)) (fixed_parameter_combinations : List (Dict V)) :
    Except ParameterCombinationError (List (Dict V)) :=
  let combinations := create_combination_from_parameters keyfield_names parameters
  if fixed_parameter_combinations.isEmpty then .ok combinations
  else add_individual_parameters_to_combinations combinations fixed_parameter_combinations

/-- utils.py:118-166, `combine_fill_table_parameters`: build the merged
combination list, raise when it is empty, run the per-combination checks,
and return the combinations. -/
def combine_fill_table_parameters {V : Type} (keyfield_names : List String)
    (parameters : List (String × List V)) (fixed_parameter_combinations : List (Dict V)) :
    Except ParameterCombinationError (List (Dict V)) := do
  let combinations ← merged_combinations keyfield_names parameters fixed_parameter_combinations
  if combinations.isEmpty then .error .noParameterCombinationFound
  else do
    check_all keyfield_names combinations
    pure combinations

/-- Python `s.split(sep)` for a one-character separator, on strings modelled
as `List Char`; like Python, the empty string splits into `[""]`. -/
def pySplit (sep : Char) : List Char → List (List Char)
  | [] => [[]]
  | c :: rest =>
    let r := pySplit sep rest
    if c = sep then [] :: r
    else
      match r with
      | [] => [[c]]
      | t :: ts => (c :: t) :: ts

/-- Python `s.rstrip(sep)` for a one-character strip set: drop every trailing
occurrence of the character. -/
def pyRstrip (strip : Char) (s : List Char) : List Char :=
  ((s.reverse.dropWhile (fun c => c = strip)).reverse)

/-- The per-token parse of utils.py:113-114:
`tuple(field.split(':')) if len(field.split(':')) == 2 else (field, 'VARCHAR(255)')` —
exactly two `:`-separated parts give `(name, TYPE)`, anything else keeps the
whole token as the name with the default type `VARCHAR(255)`. -/
def typed_field (field : List Char) : List Char × List Char :=
  match pySplit ':' field with
  | [a, b] => (a, b)
  | _ => (field, ("VARCHAR(255)").toList)

/-- utils.py:102-115, `get_fields`: empty input gives no fields; otherwise
strip trailing commas, split on commas, delete spaces inside each token
(`replace(' ', '')`), and apply the per-token parse to each token. -/
def get_fields (fields : List Char) : List (List Char × List Char) :=
  if fields.isEmpty then []
  else
    let stripped := pyRstrip ',' fields
    let fieldList := pySplit ',' stripped
    let clean_fields := fieldList.map (fun f => f.filter (fun ch => ch ≠ ' '))
    clean_fields.map typed_field

/-- utils.py:34-39, `add_timestep_result_columns`: the loop appends every
result field and then its `<field>_timestamp` shadow column of type
`VARCHAR(255)` to the accumulator list. -/
def add_timestep_result_columns (result_field_configuration : List (String × String)) :
    List (String × String) :=
  result_field_configuration.foldl
    (fun acc result_field =>
      acc ++ [result_field, (result_field.1 ++ "_timestamp", "VARCHAR(255)")]) []

/-- database_connector_mysql.py:133-135, `DatabaseConnectorMYSQL.get_autoincrement`. -/
def get_autoincrement : String := "AUTO_INCREMENT"

/-- database_connector_mysql.py:164-166, `DatabaseConnectorMYSQL.random_order_string`. -/
def random_order_string : String := "RAND()"

/-- database_connector_mysql.py:161-162: the MySQL claim-selection query is
the base class query with " FOR UPDATE;" appended. The base class
(`database_connector.DatabaseConnector._get_pull_experiment_query`) is not
part of the sources, so it is kept abstract as a function argument; the
claim only constrains the appended suffix. -/
def get_pull_experiment_query (base_pull_experiment_query : String → String)
    (order_by : String) : String :=
  base_pull_experiment_query order_by ++ " FOR UPDATE;"

/-- The four operations performed inside the `try` block of
`_pull_open_experiment` (database_connector_mysql.py:147-159). -/
inductive PullStage where
  | connectStage
  | cursorStage
  | beginStage
  | selectStage
deriving DecidableEq, Repr, Fintype

/-- Python exceptions observable from `_pull_open_experiment`: a failure of
one of the four operations, or the `UnboundLocalError` Python raises when a
local variable (here `connection`) is read before assignment. -/
inductive PyException where
  | opFailed (stage : PullStage)
  | unboundLocalError
deriving DecidableEq, Repr, Fintype

/-- The state `_pull_open_experiment` threads: whether the local variable
`connection` has been bound (a handle was opened), and whether
begin/rollback/close have been performed on it. -/
structure PullState where
  connection : Option Unit
  begun : Bool
  rolledBack : Bool
  closed : Bool
deriving DecidableEq, Repr

/-- The state at entry of `_pull_open_experiment`: no local bound, nothing
begun, rolled back or closed. -/
def initialPullState : PullState := ⟨none, false, false, false⟩

/-- Outcome of one fallible operation, driven by a success flag: the
operations themselves (pymysql connect, base-class cursor/select) are
external to the sources, so each is abstracted to succeed or raise. -/
def op_result (ok : Bool) (stage : PullStage) : Except PyException Unit :=
  if ok then .ok () else .error (.opFailed stage)

/-- database_connector_mysql.py:124-126, `_start_transaction`: begin a
transaction on the connection unless `readonly` is set. -/
def start_transaction (readonly : Bool) (beginOk : Bool) (st : PullState) :
    Except PyException Unit × PullState :=
  if readonly then (.ok (), st)
  else
    match op_result beginOk .beginStage with
    | .ok () => (.ok (), { st with begun := true })
    | .error e => (.error e, st)

/-- The `try` block of database_connector_mysql.py:148-152: connect (binding
the local `connection` on success), take a cursor, start a non-readonly
transaction, and select the open experiment. The first raised exception
aborts the block. -/
def pull_try_body (connectOk cursorOk beginOk selectOk : Bool) (st : PullState) :
    Except PyException Unit × PullState :=
  match op_result connectOk .connectStage with
  | .error e => (.error e, st)
  | .ok () =>
    let st := { st with connection := some () }
    match op_result cursorOk .cursorStage with
    | .error e => (.error e, st)
    | .ok () =>
      match start_transaction false beginOk st with
      | (.error e, st) => (.error e, st)
      | (.ok (), st) =>
        match op_result selectOk .selectStage with
        | .error e => (.error e, st)
        | .ok () => (.ok (), st)

/-- The `except`/`finally` clauses of database_connector_mysql.py:153-157.
On an exception the handler runs `connection.rollback()` then re-raises;
reading `connection` while it is unbound (connect itself failed) raises
`UnboundLocalError` instead. The `finally` clause runs
`self.close_connection(connection)` on every path, again raising
`UnboundLocalError` when `connection` is unbound. rollback and close
themselves are modelled as non-failing. -/
def pull_except_and_finally (r : Except PyException Unit × PullState) :
    Except PyException Unit × PullState :=
  let (outcome, st) := r
  let (outcome, st) :=
    match outcome with
    | .ok () => (Except.ok (), st)
    | .error e =>
      match st.connection with
      | none => (Except.error PyException.unboundLocalError, st)
      | some _ => (Except.error e, { st with rolledBack := true })
  match st.connection with
  | none => (Except.error PyException.unboundLocalError, st)
  | some _ => (outcome, { st with closed := true })

/-- database_connector_mysql.py:147-159, `_pull_open_experiment`: the try
block under the except/finally discipline, started with no local bound. -/
def pull_open_experiment (connectOk cursorOk beginOk selectOk : Bool) :
    Except PyException Unit × PullState :=
  pull_except_and_finally (pull_try_body connectOk cursorOk beginOk selectOk initialPullState)

/-! ## Helper lemmas -/

lemma except_bind_ok {ε α β : Type _} (x : α) (f : α → Except ε β) :
    (Except.ok x : Except ε α) >>= f = f x := rfl

lemma except_bind_error {ε α β : Type _} (e : ε) (f : α → Except ε β) :
    (Except.error e : Except ε α) >>= f = .error e := rfl

lemma exists_error_of_ne_ok {ε : Type _} {r : Except ε Unit} (h : r ≠ .ok ()) :
    ∃ e, r = .error e := by
  cases r with
  | ok u => cases u; exact absurd rfl h
  | error e => exact ⟨e, rfl⟩

lemma sum_map_const_nat {V : Type} (l : List V) (n : ℕ) :
    (l.map (fun _ => n)).sum = l.length * n := by
  induction l with
  | nil => simp
  | cons x l ih => simp [ih, Nat.succ_mul, Nat.add_comm]

lemma meshgrid_length {V : Type} (ds : List (List V)) :
    (meshgrid ds).length = (ds.map List.length).prod := by
  induction ds with
  | nil => simp [meshgrid]
  | cons d ds ih =>
    simp only [meshgrid, List.length_flatMap, List.map_map, List.map_cons, List.prod_cons]
    have h1 : (List.length ∘ fun v : V => (meshgrid ds).map (fun row => v :: row))
        = fun _ : V => (meshgrid ds).length := by
      funext v
      simp
    rw [h1, sum_map_const_nat, ih]

lemma mem_meshgrid {V : Type} {vs : List V} {ds : List (List V)} :
    vs ∈ meshgrid ds ↔ List.Forall₂ (fun v d => v ∈ d) vs ds := by
  induction ds generalizing vs with
  | nil =>
    constructor
    · intro h
      rw [meshgrid] at h
      simp only [List.mem_singleton] at h
      subst h
      exact List.Forall₂.nil
    · intro h
      cases h
      simp [meshgrid]
  | cons d ds ih =>
    constructor
    · intro h
      rw [meshgrid] at h
      obtain ⟨v, hv, hm⟩ := List.mem_flatMap.mp h
      obtain ⟨row, hrow, rfl⟩ := List.mem_map.mp hm
      exact List.Forall₂.cons hv (ih.mp hrow)
    · intro h
      cases h with
      | cons hv ht =>
        rw [meshgrid]
        exact List.mem_flatMap.mpr ⟨_, hv, List.mem_map.mpr ⟨_, ih.mpr ht, rfl⟩⟩

lemma used_eq_map {V : Type} {kf : List String} {params : List (String × List V)}
    (hdom : ∀ k ∈ kf, (params.lookup k).isSome) :
    kf.filterMap (fun k => (params.lookup k).map (fun d => (k, d)))
      = kf.map (fun k => (k, (params.lookup k).getD [])) := by
  induction kf with
  | nil => simp
  | cons k kf ih =>
    have hk : (params.lookup k).isSome := hdom k (by simp)
    obtain ⟨d, hd⟩ := Option.isSome_iff_exists.mp hk
    simp only [List.filterMap_cons, List.map_cons, hd, Option.map_some', Option.getD_some]
    rw [ih (fun x hx => hdom x (by simp [hx]))]

lemma used_map_fst {V : Type} (kf : List String) (params : List (String × List V)) :
    (kf.filterMap (fun k => (params.lookup k).map (fun d => (k, d)))).map Prod.fst
      = kf.filter (fun k => (params.lookup k).isSome) := by
  induction kf with
  | nil => simp
  | cons k kf ih =>
    cases hd : params.lookup k with
    | none => simp [List.filterMap_cons, List.filter_cons, hd, ih]
    | some d => simp [List.filterMap_cons, List.filter_cons, hd, ih]

lemma forall₂_zip_mem {V : Type} {l : List String} {vs : List V} {f : String → List V}
    (h : List.Forall₂ (fun v d => v ∈ d) vs (l.map f)) :
    ∀ p ∈ l.zip vs, p.2 ∈ f p.1 := by
  induction l generalizing vs with
  | nil => simp
  | cons k l ih =>
    rw [List.map_cons, List.forall₂_cons_right_iff] at h
    obtain ⟨v, t, hv, ht, rfl⟩ := h
    intro p hp
    rcases List.mem_cons.mp hp with hp | hp
    · subst hp; exact hv
    · exact ih ht p hp

lemma key_set_matches_iff {V : Type} {kf : List String} {c : Dict V} :
    key_set_matches kf c = true ↔ ∀ k, k ∈ dictKeys c ↔ k ∈ kf := by
  simp only [key_set_matches, Bool.and_eq_true, List.all_eq_true, List.contains, List.elem_iff]
  constructor
  · rintro ⟨h1, h2⟩ k
    exact ⟨fun hk => h1 k hk, fun hk => h2 k hk⟩
  · intro h
    exact ⟨fun k hk => (h k).mp hk, fun k hk => (h k).mpr hk⟩

lemma check_combination_ok_iff {V : Type} {kf : List String} {c : Dict V} :
    check_combination kf c = .ok () ↔
      ((dictKeys c).length = ((dictKeys c).dedup).length ∧ key_set_matches kf c = true) := by
  unfold check_combination
  by_cases h1 : (dictKeys c).length = ((dictKeys c).dedup).length
  · by_cases h2 : key_set_matches kf c <;> simp [h1, h2]
  · simp [h1]

lemma check_all_ok_iff {V : Type} {kf : List String} {l : List (Dict V)} :
    check_all kf l = .ok () ↔ ∀ c ∈ l, check_combination kf c = .ok () := by
  induction l with
  | nil => simp [check_all]
  | cons c rest ih =>
    simp only [check_all, bind, Except.bind]
    cases hc : check_combination kf c with
    | ok u =>
      cases u
      simp only [List.mem_cons]
      constructor
      · intro h x hx
        rcases hx with hx | hx
        · subst hx; exact hc
        · exact ih.mp h x hx
      · intro h
        exact ih.mpr (fun x hx => h x (Or.inr hx))
    | error e =>
      simp only [List.mem_cons]
      constructor
      · intro h; exact absurd h (by simp)
      · intro h
        have := h c (Or.inl rfl)
        rw [hc] at this
        exact absurd this (by simp)

lemma merge_any_eq_true {V : Type} {a b : Dict V} :
    (a.any (fun p => b.any (fun q => q.1 == p.1)) = true) ↔
      ∃ k, k ∈ dictKeys a ∧ k ∈ dictKeys b := by
  simp only [List.any_eq_true, beq_iff_eq, dictKeys, List.mem_map]
  constructor
  · rintro ⟨p, hp, q, hq, hpq⟩
    exact ⟨p.1, ⟨p, hp, rfl⟩, ⟨q, hq, hpq⟩⟩
  · rintro ⟨k, ⟨p, hp, rfl⟩, ⟨q, hq, hq1⟩⟩
    exact ⟨p, hp, q, hq, hq1⟩

lemma merge_ok_of_disjoint {V : Type} {a b : Dict V}
    (h : ∀ k ∈ dictKeys a, k ∉ dictKeys b) :
    merge_parameter_dicts a b = .ok (a ++ b) := by
  unfold merge_parameter_dicts
  rw [if_neg]
  intro hc
  obtain ⟨k, hka, hkb⟩ := merge_any_eq_true.mp hc
  exact h k hka hkb

lemma merge_error_of_common {V : Type} {a b : Dict V}
    (h : ∃ k, k ∈ dictKeys a ∧ k ∈ dictKeys b) :
    merge_parameter_dicts a b = .error .duplicateKeyInMerge := by
  unfold merge_parameter_dicts
  rw [if_pos (merge_any_eq_true.mpr h)]

lemma merge_with_each_ok {V : Type} {c : Dict V} {fixed : List (Dict V)}
    (h : ∀ f ∈ fixed, ∀ k ∈ dictKeys c, k ∉ dictKeys f) :
    merge_with_each c fixed = .ok (fixed.map (fun f => c ++ f)) := by
  induction fixed with
  | nil => rfl
  | cons f rest ih =>
    rw [merge_with_each, merge_ok_of_disjoint (h f (by simp)), except_bind_ok,
      ih (fun x hx => h x (by simp [hx])), except_bind_ok]
    rfl

lemma merge_with_each_ok_forall {V : Type} {c : Dict V} {fixed : List (Dict V)}
    {l : List (Dict V)} (h : merge_with_each c fixed = .ok l) :
    ∀ f ∈ fixed, ∃ m, merge_parameter_dicts c f = .ok m := by
  induction fixed generalizing l with
  | nil => simp
  | cons f rest ih =>
    rw [merge_with_each] at h
    cases hm : merge_parameter_dicts c f with
    | error e =>
      rw [hm, except_bind_error] at h
      exact absurd h (by simp)
    | ok m =>
      rw [hm, except_bind_ok] at h
      cases hr : merge_with_each c rest with
      | error e =>
        rw [hr, except_bind_error] at h
        exact absurd h (by simp)
      | ok ms =>
        intro x hx
        rcases List.mem_cons.mp hx with hx | hx
        · exact ⟨m, hx ▸ hm⟩
        · exact ih hr x hx

lemma merge_all_ok {V : Type} {cs fixed : List (Dict V)}
    (h : ∀ c ∈ cs, ∀ f ∈ fixed, ∀ k ∈ dictKeys c, k ∉ dictKeys f) :
    merge_all cs fixed = .ok (cs.flatMap (fun c => fixed.map (fun f => c ++ f))) := by
  induction cs with
  | nil => rfl
  | cons c cs ih =>
    rw [merge_all, merge_with_each_ok (h c (by simp)), except_bind_ok,
      ih (fun x hx => h x (by simp [hx])), except_bind_ok]
    rfl

lemma merge_all_ok_forall {V : Type} {cs fixed : List (Dict V)} {l : List (Dict V)}
    (h : merge_all cs fixed = .ok l) :
    ∀ c ∈ cs, ∀ f ∈ fixed, ∃ m, merge_parameter_dicts c f = .ok m := by
  induction cs generalizing l with
  | nil => simp
  | cons c cs ih =>
    rw [merge_all] at h
    cases hm : merge_with_each c fixed with
    | error e =>
      rw [hm, except_bind_error] at h
      exact absurd h (by simp)
    | ok first =>
      rw [hm, except_bind_ok] at h
      cases hr : merge_all cs fixed with
      | error e =>
        rw [hr, except_bind_error] at h
        exact absurd h (by simp)
      | ok rest =>
        intro x hx
        rcases List.mem_cons.mp hx with hx | hx
        · exact hx ▸ merge_with_each_ok_forall hm
        · exact ih hr x hx

lemma isEmpty_false_of_ne_nil {α : Type _} {l : List α} (h : l ≠ []) : l.isEmpty = false := by
  cases l with
  | nil => exact absurd rfl h
  | cons x xs => rfl

lemma create_keys {V : Type} {kf : List String} {params : List (String × List V)} :
    ∀ c ∈ create_combination_from_parameters kf params,
      dictKeys c = kf.filter (fun k => (params.lookup k).isSome) := by
  intro c hc
  unfold create_combination_from_parameters at hc
  set used := kf.filterMap (fun k => (params.lookup k).map (fun d => (k, d))) with hused
  by_cases hu : used.isEmpty
  · rw [if_pos hu] at hc
    exact absurd hc (List.not_mem_nil c)
  · rw [if_neg hu] at hc
    obtain ⟨vs, hvs, rfl⟩ := List.mem_map.mp hc
    have hlen : vs.length = used.length := by
      have := (mem_meshgrid.mp hvs).length_eq
      simpa using this
    rw [dictKeys, List.map_fst_zip _ _ (by simp [hlen]), hused, used_map_fst]

lemma create_eq_full {V : Type} {kf : List String} {params : List (String × List V)}
    (hdom : ∀ k ∈ kf, (params.lookup k).isSome) (hne : kf ≠ []) :
    create_combination_from_parameters kf params
      = (meshgrid (kf.map (fun k => (params.lookup k).getD []))).map (fun vs => kf.zip vs) := by
  unfold create_combination_from_parameters
  rw [used_eq_map hdom]
  have hne' : kf.map (fun k => (k, (params.lookup k).getD [])) ≠ [] := by
    simpa using hne
  rw [if_neg (by simp [isEmpty_false_of_ne_nil hne'])]
  rw [List.map_map, List.map_map]
  have h1 : (Prod.fst ∘ fun k => (k, (params.lookup k).getD [])) = fun k : String => k := rfl
  have h2 : (Prod.snd ∘ fun k => (k, (params.lookup k).getD []))
      = fun k => (params.lookup k).getD [] := rfl
  rw [h1, h2, List.map_id']

lemma create_empty_of_none {V : Type} {kf : List String} {params : List (String × List V)}
    (h : ∀ k ∈ kf, params.lookup k = none) :
    create_combination_from_parameters kf params = [] := by
  unfold create_combination_from_parameters
  have hused : kf.filterMap (fun k => (params.lookup k).map (fun d => (k, d))) = [] := by
    induction kf with
    | nil => rfl
    | cons k kf ih =>
      rw [List.filterMap_cons, h k (by simp)]
      exact ih (fun x hx => h x (by simp [hx]))
  rw [hused]
  rfl

lemma combine_of_merged_ok {V : Type} {kf : List String} {params : List (String × List V)}
    {fixed l : List (Dict V)} (h : merged_combinations kf params fixed = .ok l) :
    combine_fill_table_parameters kf params fixed
      = if l.isEmpty then .error .noParameterCombinationFound
        else (check_all kf l >>= fun _ => pure l) := by
  unfold combine_fill_table_parameters
  rw [h, except_bind_ok]

lemma combine_ok_inv {V : Type} {kf : List String} {params : List (String × List V)}
    {fixed l' : List (Dict V)} (h : combine_fill_table_parameters kf params fixed = .ok l') :
    merged_combinations kf params fixed = .ok l' ∧ l' ≠ [] ∧ check_all kf l' = .ok () := by
  cases hm : merged_combinations kf params fixed with
  | error e =>
    unfold combine_fill_table_parameters at h
    rw [hm, except_bind_error] at h
    exact absurd h (by simp)
  | ok l =>
    rw [combine_of_merged_ok hm] at h
    by_cases he : l.isEmpty
    · rw [if_pos he] at h
      exact absurd h (by simp)
    · rw [if_neg he] at h
      cases hca : check_all kf l with
      | error e =>
        rw [hca, except_bind_error] at h
        exact absurd h (by simp)
      | ok u =>
        cases u
        rw [hca, except_bind_ok] at h
        have hl : l = l' := by simpa [pure, Except.pure] using h
        subst hl
        refine ⟨rfl, ?_, hca⟩
        intro hnil
        rw [hnil] at he
        exact he rfl

lemma combine_ok_of {V : Type} {kf : List String} {params : List (String × List V)}
    {fixed l : List (Dict V)} (h1 : merged_combinations kf params fixed = .ok l)
    (h2 : l ≠ []) (h3 : check_all kf l = .ok ()) :
    combine_fill_table_parameters kf params fixed = .ok l := by
  rw [combine_of_merged_ok h1, if_neg (by simp [isEmpty_false_of_ne_nil h2]), h3, except_bind_ok]
  rfl

/-! ## Claim theorems -/

/-- C1: with every declared keyfield carrying a non-empty domain in the
parameters mapping and no fixed parameter combinations,
`combine_fill_table_parameters` returns exactly `d1 * ... * dk` combinations
(the product of the domain sizes), each combination being a mapping whose
keys are exactly the declared keyfields, each mapped to one value selected
from that keyfield's domain. -/
theorem combine_yields_full_cartesian_product {V : Type}
    (keyfield_names : List String) (parameters : List (String × List V))
    (hnodup : keyfield_names.Nodup) (hne : keyfield_names ≠ [])
    (hdom : ∀ k ∈ keyfield_names,
      (parameters.lookup k).isSome ∧ (parameters.lookup k).getD [] ≠ []) :
    ∃ l, combine_fill_table_parameters keyfield_names parameters [] = .ok l ∧
      l.length
        = (keyfield_names.map (fun k => ((parameters.lookup k).getD []).length)).prod ∧
      ∀ c ∈ l, dictKeys c = keyfield_names ∧
        ∀ p ∈ c, p.2 ∈ (parameters.lookup p.1).getD [] := by
  have hsome : ∀ k ∈ keyfield_names, (parameters.lookup k).isSome :=
    fun k hk => (hdom k hk).1
  have hc := create_eq_full hsome hne
  refine ⟨create_combination_from_parameters keyfield_names parameters, ?_, ?_, ?_⟩
  · -- the function returns this list
    have hmerged : merged_combinations keyfield_names parameters ([] : List (Dict V))
        = .ok (create_combination_from_parameters keyfield_names parameters) := rfl
    have hkeys : ∀ c ∈ create_combination_from_parameters keyfield_names parameters,
        dictKeys c = keyfield_names := by
      intro c hcm
      rw [hc] at hcm
      obtain ⟨vs, hvs, rfl⟩ := List.mem_map.mp hcm
      have hlen : vs.length = keyfield_names.length := by
        have := (mem_meshgrid.mp hvs).length_eq
        simpa using this
      rw [dictKeys, List.map_fst_zip _ _ (by simp [hlen])]
    have hchecks : check_all keyfield_names
        (create_combination_from_parameters keyfield_names parameters) = .ok () := by
      rw [check_all_ok_iff]
      intro c hcm
      rw [check_combination_ok_iff, hkeys c hcm]
      refine ⟨by rw [List.dedup_eq_self.mpr hnodup], key_set_matches_iff.mpr ?_⟩
      intro k
      rw [hkeys c hcm]
    have hnonempty : create_combination_from_parameters keyfield_names parameters ≠ [] := by
      intro hnil
      have hlen0 : (create_combination_from_parameters keyfield_names parameters).length = 0 := by
        rw [hnil]; rfl
      rw [hc, List.length_map, meshgrid_length, List.map_map] at hlen0
      have hpos : 0 < ((keyfield_names.map
          (List.length ∘ fun k => (parameters.lookup k).getD []))).prod := by
        apply List.prod_pos
        intro n hn
        obtain ⟨k, hk, rfl⟩ := List.mem_map.mp hn
        have := (hdom k hk).2
        simpa [Function.comp, List.length_pos] using this
      omega
    exact combine_ok_of hmerged hnonempty hchecks
  · -- the length is the product of the domain sizes
    rw [hc, List.length_map, meshgrid_length, List.map_map]
    rfl
  · -- every combination maps every declared keyfield to a domain value
    intro c hcm
    rw [hc] at hcm
    obtain ⟨vs, hvs, rfl⟩ := List.mem_map.mp hcm
    have hf2 := mem_meshgrid.mp hvs
    have hlen : vs.length = keyfield_names.length := by
      have := hf2.length_eq
      simpa using this
    refine ⟨by rw [dictKeys, List.map_fst_zip _ _ (by simp [hlen])], ?_⟩
    exact forall₂_zip_mem hf2

/-- Witness for C1 at keyfields a, b with domains of sizes 2 and 1. -/
theorem combine_yields_full_cartesian_product_witness :
    ∃ l, combine_fill_table_parameters ["a", "b"]
        [("a", [0, 1]), ("b", [(2 : Nat)])] [] = .ok l ∧
      l.length = ((["a", "b"]).map (fun k =>
        (([("a", [0, 1]), ("b", [(2 : Nat)])].lookup k).getD []).length)).prod ∧
      ∀ c ∈ l, dictKeys c = ["a", "b"] ∧
        ∀ p ∈ c, p.2 ∈ (([("a", [0, 1]), ("b", [(2 : Nat)])].lookup p.1).getD []) :=
  combine_yields_full_cartesian_product ["a", "b"] [("a", [0, 1]), ("b", [(2 : Nat)])]
    (by decide) (by decide) (by decide)

lemma filterMap_congr_mem {α β : Type _} {l : List α} {f g : α → Option β}
    (h : ∀ a ∈ l, f a = g a) : l.filterMap f = l.filterMap g := by
  induction l with
  | nil => rfl
  | cons a l ih =>
    rw [List.filterMap_cons, List.filterMap_cons, h a (by simp),
      ih (fun x hx => h x (by simp [hx]))]

lemma lookup_filter_contains {V : Type} {kf : List String} {params : List (String × List V)}
    {k : String} (hk : k ∈ kf) :
    (params.filter (fun p => kf.contains p.1)).lookup k = params.lookup k := by
  induction params with
  | nil => rfl
  | cons p ps ih =>
    by_cases hp : kf.contains p.1
    · rw [List.filter_cons_of_pos (by simpa using hp)]
      by_cases hkp : k == p.1
      · cases p
        simp only [List.lookup, hkp]
      · cases p
        simp only [List.lookup, hkp]
        exact ih
    · rw [List.filter_cons_of_neg (by simpa using hp)]
      have hne : (k == p.1) = false := by
        rw [beq_eq_false_iff_ne]
        intro hkp
        apply hp
        rw [← hkp]
        exact (List.elem_iff).mpr hk
      cases p
      simp only [List.lookup, hne]
      exact ih

/-- C3: the post-condition stage of `combine_fill_table_parameters` raises a
`ParameterCombinationError` whenever the merged combination list is empty or
some merged combination's key set differs from the declared keyfield name
set, and on a normal return every returned combination's key set equals the
declared keyfield name set and the returned list is non-empty. -/
theorem combine_postcondition_checks {V : Type}
    (keyfield_names : List String) (parameters : List (String × List V))
    (fixed_parameter_combinations : List (Dict V)) :
    (∀ l, merged_combinations keyfield_names parameters fixed_parameter_combinations = .ok l →
      (l = [] ∨ ∃ c ∈ l, ¬ (∀ k, k ∈ dictKeys c ↔ k ∈ keyfield_names)) →
      ∃ e, combine_fill_table_parameters keyfield_names parameters
        fixed_parameter_combinations = .error e) ∧
    (∀ l, combine_fill_table_parameters keyfield_names parameters
        fixed_parameter_combinations = .ok l →
      l ≠ [] ∧ ∀ c ∈ l, ∀ k, k ∈ dictKeys c ↔ k ∈ keyfield_names) := by
  constructor
  · intro l hm hbad
    cases hcomb : combine_fill_table_parameters keyfield_names parameters
        fixed_parameter_combinations with
    | error e => exact ⟨e, rfl⟩
    | ok l' =>
      exfalso
      obtain ⟨hm', hne, hchecks⟩ := combine_ok_inv hcomb
      rw [hm] at hm'
      have hll : l = l' := by injection hm'
      subst hll
      rcases hbad with hbad | ⟨c, hcl, hbad⟩
      · exact hne hbad
      · have hok := check_all_ok_iff.mp hchecks c hcl
        have := (check_combination_ok_iff.mp hok).2
        exact hbad (key_set_matches_iff.mp this)
  · intro l hcomb
    obtain ⟨_, hne, hchecks⟩ := combine_ok_inv hcomb
    refine ⟨hne, ?_⟩
    intro c hcl
    have hok := check_all_ok_iff.mp hchecks c hcl
    exact key_set_matches_iff.mp (check_combination_ok_iff.mp hok).2

/-- Witness for C3: a keyfield without a domain makes the key sets differ
and the function errors; a full domain cover returns with matching key sets. -/
theorem combine_postcondition_checks_witness :
    (∃ e, combine_fill_table_parameters ["a", "b"] [("a", [(0 : Nat)])] []
      = .error e) ∧
    (([[("a", (0 : Nat))]] : List (Dict Nat)) ≠ [] ∧
      ∀ c ∈ ([[("a", (0 : Nat))]] : List (Dict Nat)), ∀ k, k ∈ dictKeys c ↔ k ∈ ["a"]) := by
  constructor
  · refine (combine_postcondition_checks ["a", "b"] [("a", [(0 : Nat)])] []).1
      [[("a", 0)]] (by decide) ?_
    right
    refine ⟨[("a", 0)], by decide, ?_⟩
    intro hall
    exact absurd ((hall "b").mpr (by decide)) (by decide)
  · exact (combine_postcondition_checks ["a"] [("a", [(0 : Nat)])] []).2
      [[("a", 0)]] (by decide)

/-- C9: when no declared keyfield has a domain in the parameters mapping and
fixed parameter combinations are supplied, the merge stage yields the fixed
combinations verbatim, and a normal return of
`combine_fill_table_parameters` returns exactly them. -/
theorem combine_uses_fixed_verbatim {V : Type}
    (keyfield_names : List String) (parameters : List (String × List V))
    (fixed_parameter_combinations : List (Dict V))
    (hdom : ∀ k ∈ keyfield_names, parameters.lookup k = none)
    (hfix : fixed_parameter_combinations ≠ []) :
    merged_combinations keyfield_names parameters fixed_parameter_combinations
      = .ok fixed_parameter_combinations ∧
    ∀ l, combine_fill_table_parameters keyfield_names parameters
        fixed_parameter_combinations = .ok l → l = fixed_parameter_combinations := by
  have hcreate := create_empty_of_none hdom
  have hmerged : merged_combinations keyfield_names parameters fixed_parameter_combinations
      = .ok fixed_parameter_combinations := by
    show (if fixed_parameter_combinations.isEmpty
        then Except.ok (create_combination_from_parameters keyfield_names parameters)
        else add_individual_parameters_to_combinations
          (create_combination_from_parameters keyfield_names parameters)
          fixed_parameter_combinations)
      = .ok fixed_parameter_combinations
    rw [hcreate, if_neg (by simp [isEmpty_false_of_ne_nil hfix])]
    rfl
  refine ⟨hmerged, ?_⟩
  intro l hl
  have h1 := (combine_ok_inv hl).1
  rw [hmerged] at h1
  injection h1 with h1
  exact h1.symm

/-- Witness for C9: with no domains, the single fixed row is the result. -/
theorem combine_uses_fixed_verbatim_witness :
    merged_combinations ["a"] ([] : List (String × List Nat)) [[("a", 5)]]
      = .ok [[("a", 5)]] ∧
    ∀ l, combine_fill_table_parameters ["a"] ([] : List (String × List Nat))
        [[("a", 5)]] = .ok l → l = [[("a", 5)]] :=
  combine_uses_fixed_verbatim ["a"] [] [[("a", 5)]] (by decide) (by decide)

/-- C10: `create_combination_from_parameters` iterates the declared
keyfields in declaration order, silently skipping those without an entry in
the parameters mapping (every produced combination's key list is the
declaration-ordered list of keyfields with a supplied domain); parameter
keys that are not declared keyfields never contribute — filtering them away
changes neither the product nor the result of
`combine_fill_table_parameters`, so by themselves they raise no error. -/
theorem create_combination_declared_keyfields_only {V : Type}
    (keyfield_names : List String) (parameters : List (String × List V))
    (fixed_parameter_combinations : List (Dict V)) :
    create_combination_from_parameters keyfield_names parameters
      = create_combination_from_parameters keyfield_names
          (parameters.filter (fun p => keyfield_names.contains p.1)) ∧
    (∀ c ∈ create_combination_from_parameters keyfield_names parameters,
      dictKeys c = keyfield_names.filter (fun k => (parameters.lookup k).isSome)) ∧
    combine_fill_table_parameters keyfield_names parameters fixed_parameter_combinations
      = combine_fill_table_parameters keyfield_names
          (parameters.filter (fun p => keyfield_names.contains p.1))
          fixed_parameter_combinations := by
  have hlookups : ∀ k ∈ keyfield_names,
      ((parameters.filter (fun p => keyfield_names.contains p.1)).lookup k).map
          (fun d => (k, d))
        = (parameters.lookup k).map (fun d => (k, d)) := by
    intro k hk
    rw [lookup_filter_contains hk]
  have hcreate : create_combination_from_parameters keyfield_names parameters
      = create_combination_from_parameters keyfield_names
          (parameters.filter (fun p => keyfield_names.contains p.1)) := by
    simp only [create_combination_from_parameters]
    rw [filterMap_congr_mem (fun k hk => (hlookups k hk).symm)]
  refine ⟨hcreate, create_keys, ?_⟩
  have hmerged : merged_combinations keyfield_names parameters fixed_parameter_combinations
      = merged_combinations keyfield_names
          (parameters.filter (fun p => keyfield_names.contains p.1))
          fixed_parameter_combinations := by
    simp only [merged_combinations]
    rw [hcreate]
  simp only [combine_fill_table_parameters]
  rw [hmerged]

/-- Witness for C10: parameters give a domain for declared keyfield b but
none for a, plus an undeclared key z; the result has key list [b] and the
undeclared key changes nothing. -/
theorem create_combination_declared_keyfields_only_witness :
    dictKeys [("b", (1 : Nat))]
      = (["a", "b"]).filter
          (fun k => (([("b", [(1 : Nat)]), ("z", [9])].lookup k).isSome)) ∧
    combine_fill_table_parameters ["a", "b"] [("b", [(1 : Nat)]), ("z", [9])] []
      = combine_fill_table_parameters ["a", "b"]
          (([("b", [(1 : Nat)]), ("z", [9])]).filter
            (fun p => (["a", "b"]).contains p.1)) [] := by
  constructor
  · exact (create_combination_declared_keyfields_only ["a", "b"]
      [("b", [(1 : Nat)]), ("z", [9])] []).2.1 [("b", 1)] (by decide)
  · exact (create_combination_declared_keyfields_only ["a", "b"]
      [("b", [(1 : Nat)]), ("z", [9])] []).2.2

lemma merged_eq_merge_all {V : Type} {kf : List String} {params : List (String × List V)}
    {fixed : List (Dict V)} (hP : create_combination_from_parameters kf params ≠ [])
    (hF : fixed ≠ []) :
    merged_combinations kf params fixed
      = merge_all (create_combination_from_parameters kf params) fixed := by
  show (if fixed.isEmpty
      then Except.ok (create_combination_from_parameters kf params)
      else add_individual_parameters_to_combinations
        (create_combination_from_parameters kf params) fixed)
    = merge_all (create_combination_from_parameters kf params) fixed
  rw [if_neg (by simp [isEmpty_false_of_ne_nil hF])]
  unfold add_individual_parameters_to_combinations
  rw [if_neg (by simp [isEmpty_false_of_ne_nil hP])]

/-- C2 counterexample: keyfield a with domain [0] and the single fixed row
(b ↦ 0) have disjoint key sets, yet `combine_fill_table_parameters` does not
return the one merged row — the post-condition key-set check raises
`ParameterCombinationError`, because the union's key set {a, b} is not the
declared keyfield set {a}. -/
theorem combine_fixed_disjoint_counterexample :
    (∀ c ∈ create_combination_from_parameters ["a"] [("a", [(0 : Nat)])],
      ∀ f ∈ ([[("b", (0 : Nat))]] : List (Dict Nat)),
        ∀ k ∈ dictKeys c, k ∉ dictKeys f) ∧
    combine_fill_table_parameters ["a"] [("a", [(0 : Nat)])] [[("b", 0)]]
      = .error .keyfieldSetMismatch := by
  constructor
  · decide
  · decide

/-- C2 amended: with product rows and a non-empty fixed list whose key sets
are disjoint from the product rows' key sets, and whose unions each cover
exactly the declared keyfield set, `combine_fill_table_parameters` returns
the union of every product row with every fixed row — exactly
(product size) × F combinations; and whenever some key occurs both in a
product row and in a fixed row it raises `ParameterCombinationError`. -/
theorem combine_fixed_parameter_merge {V : Type}
    (keyfield_names : List String) (parameters : List (String × List V))
    (fixed_parameter_combinations : List (Dict V))
    (hnodup : keyfield_names.Nodup)
    (hfnd : ∀ f ∈ fixed_parameter_combinations, (dictKeys f).Nodup)
    (hP : create_combination_from_parameters keyfield_names parameters ≠ [])
    (hF : fixed_parameter_combinations ≠ []) :
    ((∀ c ∈ create_combination_from_parameters keyfield_names parameters,
        ∀ f ∈ fixed_parameter_combinations, ∀ k ∈ dictKeys c, k ∉ dictKeys f) →
      (∀ c ∈ create_combination_from_parameters keyfield_names parameters,
        ∀ f ∈ fixed_parameter_combinations,
          ∀ k, (k ∈ dictKeys c ∨ k ∈ dictKeys f) ↔ k ∈ keyfield_names) →
      combine_fill_table_parameters keyfield_names parameters fixed_parameter_combinations
        = .ok ((create_combination_from_parameters keyfield_names parameters).flatMap
            (fun c => fixed_parameter_combinations.map (fun f => c ++ f))) ∧
      ((create_combination_from_parameters keyfield_names parameters).flatMap
          (fun c => fixed_parameter_combinations.map (fun f => c ++ f))).length
        = (create_combination_from_parameters keyfield_names parameters).length
            * fixed_parameter_combinations.length) ∧
    ((∃ c ∈ create_combination_from_parameters keyfield_names parameters,
        ∃ f ∈ fixed_parameter_combinations, ∃ k, k ∈ dictKeys c ∧ k ∈ dictKeys f) →
      ∃ e, combine_fill_table_parameters keyfield_names parameters
        fixed_parameter_combinations = .error e) := by
  constructor
  · intro hdisj hcover
    have hlen : ((create_combination_from_parameters keyfield_names parameters).flatMap
        (fun c => fixed_parameter_combinations.map (fun f => c ++ f))).length
        = (create_combination_from_parameters keyfield_names parameters).length
            * fixed_parameter_combinations.length := by
      rw [List.length_flatMap]
      have : ((create_combination_from_parameters keyfield_names parameters).map
          (List.length ∘ fun c => fixed_parameter_combinations.map (fun f => c ++ f)))
          = (create_combination_from_parameters keyfield_names parameters).map
            (fun _ => fixed_parameter_combinations.length) := by
        apply List.map_congr_left
        intro c _
        simp
      rw [this, sum_map_const_nat]
    refine ⟨?_, hlen⟩
    have hmerged : merged_combinations keyfield_names parameters fixed_parameter_combinations
        = .ok ((create_combination_from_parameters keyfield_names parameters).flatMap
            (fun c => fixed_parameter_combinations.map (fun f => c ++ f))) := by
      rw [merged_eq_merge_all hP hF]
      exact merge_all_ok hdisj
    have hnonempty : ((create_combination_from_parameters keyfield_names parameters).flatMap
        (fun c => fixed_parameter_combinations.map (fun f => c ++ f))) ≠ [] := by
      rw [← List.length_pos, hlen]
      have h1 : 0 < (create_combination_from_parameters keyfield_names parameters).length :=
        List.length_pos.mpr hP
      have h2 : 0 < fixed_parameter_combinations.length := List.length_pos.mpr hF
      exact Nat.mul_pos h1 h2
    have hchecks : check_all keyfield_names
        ((create_combination_from_parameters keyfield_names parameters).flatMap
          (fun c => fixed_parameter_combinations.map (fun f => c ++ f))) = .ok () := by
      rw [check_all_ok_iff]
      intro u hu
      obtain ⟨c, hc, hu⟩ := List.mem_flatMap.mp hu
      obtain ⟨f, hf, rfl⟩ := List.mem_map.mp hu
      have hkeys : dictKeys (c ++ f) = dictKeys c ++ dictKeys f := by
        rw [dictKeys, dictKeys, dictKeys, List.map_append]
      have hnd : (dictKeys (c ++ f)).Nodup := by
        rw [hkeys]
        refine List.Nodup.append ?_ (hfnd f hf) ?_
        · rw [create_keys c hc]
          exact hnodup.filter _
        · intro k hkc hkf
          exact hdisj c hc f hf k hkc hkf
      rw [check_combination_ok_iff]
      constructor
      · rw [List.dedup_eq_self.mpr hnd]
      · rw [key_set_matches_iff]
        intro k
        rw [hkeys, List.mem_append]
        exact hcover c hc f hf k
    exact combine_ok_of hmerged hnonempty hchecks
  · rintro ⟨c, hc, f, hf, k, hkc, hkf⟩
    cases hcomb : combine_fill_table_parameters keyfield_names parameters
        fixed_parameter_combinations with
    | error e => exact ⟨e, rfl⟩
    | ok l =>
      exfalso
      have hm := (combine_ok_inv hcomb).1
      rw [merged_eq_merge_all hP hF] at hm
      obtain ⟨m, hmok⟩ := merge_all_ok_forall hm c hc f hf
      rw [merge_error_of_common ⟨k, hkc, hkf⟩] at hmok
      exact absurd hmok (by simp)

/-- Witness for C2 (amended): two product rows on keyfield a crossed with
two fixed rows on b give four merged rows; a fixed row reusing keyfield a
makes the function raise. -/
theorem combine_fixed_parameter_merge_witness :
    (combine_fill_table_parameters ["a", "b"] [("a", [(0 : Nat), 1])]
        [[("b", 5)], [("b", 6)]]
      = .ok ((create_combination_from_parameters ["a", "b"] [("a", [(0 : Nat), 1])]).flatMap
          (fun c => ([[("b", (5 : Nat))], [("b", 6)]]).map (fun f => c ++ f))) ∧
      ((create_combination_from_parameters ["a", "b"] [("a", [(0 : Nat), 1])]).flatMap
          (fun c => ([[("b", (5 : Nat))], [("b", 6)]]).map (fun f => c ++ f))).length
        = (create_combination_from_parameters ["a", "b"] [("a", [(0 : Nat), 1])]).length
            * ([[("b", (5 : Nat))], [("b", 6)]] : List (Dict Nat)).length) ∧
    (∃ e, combine_fill_table_parameters ["a"] [("a", [(0 : Nat)])] [[("a", 1)]]
      = .error e) := by
  constructor
  · refine (combine_fixed_parameter_merge ["a", "b"] [("a", [(0 : Nat), 1])]
      [[("b", 5)], [("b", 6)]] (by decide) (by decide) (by decide) (by decide)).1
      (by decide) ?_
    intro c hc f hf k
    have hPeq : create_combination_from_parameters ["a", "b"] [("a", [(0 : Nat), 1])]
        = [[("a", 0)], [("a", 1)]] := by decide
    rw [hPeq] at hc
    simp only [List.mem_cons, List.not_mem_nil, or_false] at hc hf
    rcases hc with rfl | rfl <;> rcases hf with rfl | rfl <;> simp [dictKeys]
  · exact (combine_fixed_parameter_merge ["a"] [("a", [(0 : Nat)])] [[("a", 1)]]
      (by decide) (by decide) (by decide) (by decide)).2
      ⟨[("a", 0)], by decide, [("a", 1)], by decide, "a", by decide, by decide⟩

/-- C4: for every combination of operation outcomes, the opened connection
handle is released on every exit path (whenever the local `connection` was
bound, `close_connection` ran), and when `connect` itself succeeded, any
exception raised by the transacted work is re-raised unchanged to the
caller after the transaction was rolled back. -/
theorem pull_open_experiment_release_and_reraise
    (connectOk cursorOk beginOk selectOk : Bool) :
    (((pull_open_experiment connectOk cursorOk beginOk selectOk).2.connection.isSome = true) →
      (pull_open_experiment connectOk cursorOk beginOk selectOk).2.closed = true) ∧
    (connectOk = true →
      ∀ e, (pull_try_body connectOk cursorOk beginOk selectOk initialPullState).1 = .error e →
        (pull_open_experiment connectOk cursorOk beginOk selectOk).1 = .error e ∧
        (pull_open_experiment connectOk cursorOk beginOk selectOk).2.rolledBack = true) := by
  revert connectOk cursorOk beginOk selectOk
  decide

/-- Witness for C4: a cursor failure after a successful connect rolls back,
re-raises the cursor exception, and still closes the connection. -/
theorem pull_open_experiment_release_and_reraise_witness :
    (pull_open_experiment true false true true).1 = .error (.opFailed .cursorStage) ∧
    (pull_open_experiment true false true true).2.rolledBack = true ∧
    (pull_open_experiment true false true true).2.closed = true := by
  have h := pull_open_experiment_release_and_reraise true false true true
  have h2 := h.2 rfl (.opFailed .cursorStage) (by rfl)
  exact ⟨h2.1, h2.2, h.1 (by rfl)⟩

/-- C5: the MySQL backend's claim-selection query is the base pull query
with " FOR UPDATE;" appended, its random-order expression is "RAND()", and
its autoincrement syntax is "AUTO_INCREMENT". -/
theorem mysql_capability_profile :
    (∀ (base_pull_experiment_query : String → String) (order_by : String),
      get_pull_experiment_query base_pull_experiment_query order_by
        = base_pull_experiment_query order_by ++ " FOR UPDATE;") ∧
    random_order_string = "RAND()" ∧
    get_autoincrement = "AUTO_INCREMENT" :=
  ⟨fun _ _ => rfl, rfl, rfl⟩

lemma pySplit_of_not_mem {sep : Char} {s : List Char} (h : sep ∉ s) :
    pySplit sep s = [s] := by
  induction s with
  | nil => rfl
  | cons c cs ih =>
    simp only [pySplit]
    have hc : ¬(c = sep) := fun hh => h (by simp [hh])
    rw [if_neg hc, ih (fun hh => h (by simp [hh]))]

lemma pySplit_append {sep : Char} {a : List Char} (b : List Char) (ha : sep ∉ a) :
    pySplit sep (a ++ sep :: b) = a :: pySplit sep b := by
  induction a with
  | nil =>
    simp [pySplit]
  | cons c cs ih =>
    have hrw : (c :: cs) ++ sep :: b = c :: (cs ++ sep :: b) := rfl
    rw [hrw]
    simp only [pySplit]
    have hc : ¬(c = sep) := fun hh => ha (by simp [hh])
    rw [if_neg hc, ih (fun hh => ha (by simp [hh]))]

lemma pyRstrip_of_not_mem {strip : Char} {s : List Char} (h : strip ∉ s) :
    pyRstrip strip s = s := by
  unfold pyRstrip
  have hd : s.reverse.dropWhile (fun c => c = strip) = s.reverse := by
    cases hr : s.reverse with
    | nil => rfl
    | cons a t =>
      rw [List.dropWhile_cons]
      have ha : a ∈ s := by
        have : a ∈ s.reverse := by rw [hr]; simp
        simpa using this
      rw [if_neg (by simp; intro hh; exact h (hh ▸ ha))]
  rw [hd, List.reverse_reverse]

lemma typed_field_of_pair {f a b : List Char} (h : pySplit ':' f = [a, b]) :
    typed_field f = (a, b) := by
  unfold typed_field
  rw [h]

lemma typed_field_default {f : List Char} (h : (pySplit ':' f).length ≠ 2) :
    typed_field f = (f, ("VARCHAR(255)").toList) := by
  unfold typed_field
  rcases hsp : pySplit ':' f with _ | ⟨a, _ | ⟨b, _ | ⟨c, t⟩⟩⟩
  · rfl
  · rfl
  · rw [hsp] at h
    exact absurd rfl h
  · rfl

lemma get_fields_single {s : List Char} (h0 : s ≠ []) (hc : (',' : Char) ∉ s)
    (hs : (' ' : Char) ∉ s) :
    get_fields s = [typed_field s] := by
  unfold get_fields
  rw [if_neg (by simp [isEmpty_false_of_ne_nil h0])]
  dsimp only
  rw [pyRstrip_of_not_mem hc, pySplit_of_not_mem hc]
  have hfilter : s.filter (fun ch => ch ≠ ' ') = s := by
    rw [List.filter_eq_self]
    intro a ha
    simp only [ne_eq, decide_eq_true_eq]
    intro hh
    exact hs (hh ▸ ha)
  simp only [List.map_cons, List.map_nil, hfilter]

/-- C7: a well-formed bare name token parses to the pair
(name, VARCHAR(255)), and a well-formed name:TYPE token parses to the pair
(name, TYPE) with the SQL type taken verbatim. -/
theorem get_fields_token_parsing (name ty : List Char)
    (hn0 : name ≠ []) (hnc : (',' : Char) ∉ name) (hns : (' ' : Char) ∉ name)
    (hncol : (':' : Char) ∉ name)
    (htc : (',' : Char) ∉ ty) (hts : (' ' : Char) ∉ ty) (htcol : (':' : Char) ∉ ty) :
    get_fields name = [(name, ("VARCHAR(255)").toList)] ∧
    get_fields (name ++ ':' :: ty) = [(name, ty)] := by
  constructor
  · rw [get_fields_single hn0 hnc hns,
      typed_field_default (by rw [pySplit_of_not_mem hncol]; simp)]
  · have h0 : name ++ ':' :: ty ≠ [] := by simp
    have hc : (',' : Char) ∉ name ++ ':' :: ty := by
      intro hmem
      rcases List.mem_append.mp hmem with h | h
      · exact hnc h
      · rcases List.mem_cons.mp h with h | h
        · exact absurd h (by decide)
        · exact htc h
    have hsp : (' ' : Char) ∉ name ++ ':' :: ty := by
      intro hmem
      rcases List.mem_append.mp hmem with h | h
      · exact hns h
      · rcases List.mem_cons.mp h with h | h
        · exact absurd h (by decide)
        · exact hts h
    rw [get_fields_single h0 hc hsp, typed_field_of_pair
      (by rw [pySplit_append ty hncol, pySplit_of_not_mem htcol])]

/-- Witness for C7 at the tokens sin and sin:DOUBLE. -/
theorem get_fields_token_parsing_witness :
    get_fields (("sin").toList) = [(("sin").toList, ("VARCHAR(255)").toList)] ∧
    get_fields (("sin").toList ++ ':' :: ("DOUBLE").toList)
      = [(("sin").toList, ("DOUBLE").toList)] :=
  get_fields_token_parsing (("sin").toList) (("DOUBLE").toList)
    (by decide) (by decide) (by decide) (by decide) (by decide) (by decide) (by decide)

/-- C6 counterexample: the malformed token a:b:c (two separators, so its
split has three parts) is not rejected with an error; `get_fields` returns
it whole as a field named a:b:c with the default type. `get_fields`
(utils.py:102-115) has no raise statement at all, and utils.py does not
even import a `ConfigurationError`. -/
theorem get_fields_double_separator_counterexample :
    get_fields (("a:b:c").toList) = [(("a:b:c").toList, ("VARCHAR(255)").toList)] ∧
    (pySplit ':' (("a:b:c").toList)).length = 3 := by
  constructor
  · decide
  · decide

/-- C6 amended: field-specification parsing never fails; a token whose
split on the separator does not have exactly two parts (in particular one
with more than one separator) is kept whole as the field name with the
default type VARCHAR(255). -/
theorem get_fields_malformed_token_not_rejected (name : List Char)
    (h0 : name ≠ []) (hc : (',' : Char) ∉ name) (hs : (' ' : Char) ∉ name)
    (hm : (pySplit ':' name).length ≠ 2) :
    get_fields name = [(name, ("VARCHAR(255)").toList)] := by
  rw [get_fields_single h0 hc hs, typed_field_default hm]

/-- Witness for C6 (amended) at the token x:y:z. -/
theorem get_fields_malformed_token_not_rejected_witness :
    get_fields (("x:y:z").toList) = [(("x:y:z").toList, ("VARCHAR(255)").toList)] :=
  get_fields_malformed_token_not_rejected (("x:y:z").toList)
    (by decide) (by decide) (by decide) (by decide)

lemma foldl_append_eq_flatMap {α β : Type _} (g : α → List β) (l : List α)
    (init : List β) :
    l.foldl (fun acc f => acc ++ g f) init = init ++ l.flatMap g := by
  induction l generalizing init with
  | nil => simp
  | cons a l ih => simp [ih, List.append_assoc]

/-- C8: `add_timestep_result_columns` returns twice as many columns as
declared result fields, each original field in its original order
immediately followed by its shadow column named <field>_timestamp of
string type VARCHAR(255). -/
theorem add_timestep_result_columns_spec
    (result_field_configuration : List (String × String)) :
    add_timestep_result_columns result_field_configuration
      = result_field_configuration.flatMap
          (fun f => [f, (f.1 ++ "_timestamp", "VARCHAR(255)")]) ∧
    (add_timestep_result_columns result_field_configuration).length
      = 2 * result_field_configuration.length := by
  have h1 : add_timestep_result_columns result_field_configuration
      = result_field_configuration.flatMap
          (fun f => [f, (f.1 ++ "_timestamp", "VARCHAR(255)")]) := by
    unfold add_timestep_result_columns
    rw [foldl_append_eq_flatMap
      (fun f : String × String => [f, (f.1 ++ "_timestamp", "VARCHAR(255)")])
      result_field_configuration [], List.nil_append]
  refine ⟨h1, ?_⟩
  rw [h1, List.length_flatMap]
  have h2 : (result_field_configuration.map
      (List.length ∘ fun f : String × String => [f, (f.1 ++ "_timestamp", "VARCHAR(255)")]))
      = result_field_configuration.map (fun _ => 2) := by
    apply List.map_congr_left
    intro f _
    rfl
  rw [h2, sum_map_const_nat, Nat.mul_comm]

end PyExperimenter
